import Mathlib

/-!
Verification of the critter test-automation harness core:
capability construction and merging, platform detection, provider
registry memoisation, broker initialisation, adapter teardown,
the fixture resource ledger, and the HTTP client ownership layer.

JavaScript objects are embedded as association lists of string keys and
`Val` values; object identity and `Object.freeze` are embedded with an
explicit heap of numbered objects.  Nested option objects are stored
structurally (by value): no operation of the embedded code mutates a
nested object in place, so this is observationally faithful.
-/

namespace Critter

/-! ## JS values and plain objects -/

/-- A JavaScript value as the capability layer sees it:
strings, numbers, booleans, nested plain objects, arrays,
`null` and `undefined`. -/
inductive Val where
  | str : String → Val
  | num : Int → Val
  | bool : Bool → Val
  | obj : List (String × Val) → Val
  | arr : List Val → Val
  | null : Val
  | undef : Val

/-- JS property read `o[k]` on a plain object: first binding wins. -/
def getKey (o : List (String × Val)) (k : String) : Option Val :=
  match o with
  | [] => none
  | (k₁, v) :: rest => if k₁ = k then some v else getKey rest k

/-- JS property write `o[k] = v`: overwrite the existing binding in place,
or append a fresh one. -/
def setKey (o : List (String × Val)) (k : String) (v : Val) :
    List (String × Val) :=
  match o with
  | [] => [(k, v)]
  | (k₁, v₁) :: rest =>
      if k₁ = k then (k₁, v) :: rest else (k₁, v₁) :: setKey rest k v

/-- JS `delete o[k]`. -/
def delKey (o : List (String × Val)) (k : String) : List (String × Val) :=
  o.filter (fun p => p.1 ≠ k)

/-- JS object spread `{ ...a, ...b }`: later sources overwrite earlier
bindings key by key. -/
def spread (a b : List (String × Val)) : List (String × Val) :=
  b.foldl (fun acc p => setKey acc p.1 p.2) a

/-! ## Platform detection (providers/_caps.ts) -/

/-- A platform classification: `detectPlatformFromCaps` returns one of
exactly two variants. -/
inductive Platform where
  | android : Platform
  | ios : Platform
deriving DecidableEq

/-- Whether `sub` occurs as a contiguous run inside `l`
(JS `String.prototype.includes` on the character lists). -/
def listIncludes (sub : List Char) : List Char → Bool
  | [] => List.isPrefixOf sub []
  | c :: t => List.isPrefixOf sub (c :: t) || listIncludes sub t

/-- JS `s.includes(sub)`. -/
def jsIncludes (s sub : String) : Bool :=
  listIncludes sub.data s.data

/-- JS `s.toLowerCase()` (ASCII case suffices for the embedded inputs). -/
def jsToLower (s : String) : String :=
  ⟨s.data.map Char.toLower⟩

/-- JS `s.trim()`: strip leading and trailing whitespace. -/
def jsTrim (s : String) : String :=
  ⟨((s.data.dropWhile Char.isWhitespace).reverse.dropWhile
      Char.isWhitespace).reverse⟩

/-- Source `pickPlatformName(caps)`: read `platformName`, falling back to
`appium:platformName`, keeping only string values; trim and lower-case
the result; a missing or non-record input yields `""`. -/
def pickPlatformName (caps : Option (List (String × Val))) : String :=
  match caps with
  | none => ""
  | some m =>
      let pn1 : Option String :=
        match getKey m "platformName" with
        | some (Val.str s) => some s
        | _ => none
      let pn2 : Option String :=
        match getKey m "appium:platformName" with
        | some (Val.str s) => some s
        | _ => none
      jsToLower (jsTrim ((pn1 <|> pn2).getD ""))

/-- Source `detectPlatformFromCaps(caps)`: iOS when the picked platform name
contains `"ios"`, Android otherwise. -/
def detectPlatformFromCaps (caps : Option (List (String × Val))) : Platform :=
  if jsIncludes (pickPlatformName caps) "ios" then Platform.ios
  else Platform.android

/-- The eight letter-case variants of the word "ios". -/
def iosCaseVariants : List String :=
  ["ios", "ioS", "iOs", "iOS", "Ios", "IoS", "IOs", "IOS"]

/-! ## Heap of JS objects (object identity and freezing) -/

/-- A heap-allocated plain object together with its frozen flag. -/
structure HObj where
  fields : List (String × Val)
  frozen : Bool

/-- First-match association lookup with decidable keys. -/
def lookupA {α β : Type} [DecidableEq α] (k : α) : List (α × β) → Option β
  | [] => none
  | (k₁, v) :: rest => if k₁ = k then some v else lookupA k rest

/-- The heap: numbered objects plus the next fresh object number. -/
structure Heap where
  objs : List (Nat × HObj)
  next : Nat

def emptyHeap : Heap := ⟨[], 0⟩

def Heap.lookup (h : Heap) (r : Nat) : Option HObj :=
  lookupA r h.objs

/-- Allocate a fresh object. -/
def Heap.alloc (h : Heap) (o : HObj) : Nat × Heap :=
  (h.next, ⟨(h.next, o) :: h.objs, h.next + 1⟩)

/-- The effect of `o[k] = v` on one heap entry: frozen objects silently
ignore assignment (JS non-strict semantics of `Object.freeze`). -/
def writeEntry (r : Nat) (k : String) (v : Val) (p : Nat × HObj) : Nat × HObj :=
  if p.1 = r ∧ p.2.frozen = false then (p.1, ⟨setKey p.2.fields k v, p.2.frozen⟩)
  else p

/-- JS assignment `heap[r][k] = v`. -/
def Heap.writeField (h : Heap) (r : Nat) (k : String) (v : Val) : Heap :=
  ⟨h.objs.map (writeEntry r k v), h.next⟩

/-- The effect of `delete o[k]` on one heap entry; frozen objects silently
ignore deletion. -/
def deleteEntry (r : Nat) (k : String) (p : Nat × HObj) : Nat × HObj :=
  if p.1 = r ∧ p.2.frozen = false then (p.1, ⟨delKey p.2.fields k, p.2.frozen⟩)
  else p

/-- JS `delete heap[r][k]`. -/
def Heap.deleteField (h : Heap) (r : Nat) (k : String) : Heap :=
  ⟨h.objs.map (deleteEntry r k), h.next⟩

/-! ## CapabilityBuilder (capabilities/CapabilityBuilder.ts) -/

/-- A `CapabilityBuilder` instance: it holds the reference `this.caps`
to its working object. -/
structure CapabilityBuilder where
  capsId : Nat

/-- Constructor: `private constructor(base) { this.caps = { ...base } }`. -/
def CapabilityBuilder.mkBuilder (base : List (String × Val)) (h : Heap) :
    CapabilityBuilder × Heap :=
  let (r, h₁) := h.alloc ⟨base, false⟩
  (⟨r⟩, h₁)

/-- Factory `CapabilityBuilder.android(automationName = "UiAutomator2")`. -/
def CapabilityBuilder.android (automationName : String := "UiAutomator2")
    (h : Heap) : CapabilityBuilder × Heap :=
  CapabilityBuilder.mkBuilder
    [("platformName", Val.str "Android"),
     ("appium:automationName", Val.str automationName)] h

/-- Factory `CapabilityBuilder.ios(automationName = "XCUITest")`. -/
def CapabilityBuilder.ios (automationName : String := "XCUITest")
    (h : Heap) : CapabilityBuilder × Heap :=
  CapabilityBuilder.mkBuilder
    [("platformName", Val.str "iOS"),
     ("appium:automationName", Val.str automationName)] h

/-- The current contents of `this.caps`. -/
def CapabilityBuilder.fields (b : CapabilityBuilder) (h : Heap) :
    List (String × Val) :=
  match h.lookup b.capsId with
  | some o => o.fields
  | none => []

/-- Method `option(k, v)`: `this.caps[k] = v`. -/
def CapabilityBuilder.option (b : CapabilityBuilder) (k : String) (v : Val)
    (h : Heap) : Heap :=
  h.writeField b.capsId k v

/-- Method `appium(k, v)`: `this.caps["appium:" + k] = v`. -/
def CapabilityBuilder.appium (b : CapabilityBuilder) (k : String) (v : Val)
    (h : Heap) : Heap :=
  h.writeField b.capsId ("appium:" ++ k) v

/-- Method `setIf(k, v)`: write only when `v` is neither `undefined` nor `null`. -/
def CapabilityBuilder.setIf (b : CapabilityBuilder) (k : String) (v : Val)
    (h : Heap) : Heap :=
  match v with
  | Val.undef => h
  | Val.null => h
  | _ => h.writeField b.capsId k v

/-- Method `unset(k)`: `delete this.caps[k]`. -/
def CapabilityBuilder.unset (b : CapabilityBuilder) (k : String) (h : Heap) :
    Heap :=
  h.deleteField b.capsId k

/-- Method `merge(obj)`: `this.caps = { ...this.caps, ...obj }` allocates a new
working object and repoints the builder at it. -/
def CapabilityBuilder.merge (b : CapabilityBuilder)
    (o : List (String × Val)) (h : Heap) : CapabilityBuilder × Heap :=
  let (r, h₁) := h.alloc ⟨spread (b.fields h) o, false⟩
  (⟨r⟩, h₁)

/-- Method `vendor(ns, opts)`: read the nested record at `ns` (anything that is
not a plain record counts as `{}`), then
`this.caps[ns] = { ...base, ...opts }`. -/
def CapabilityBuilder.vendor (b : CapabilityBuilder) (ns : String)
    (opts : List (String × Val)) (h : Heap) : Heap :=
  let base : List (String × Val) :=
    match getKey (b.fields h) ns with
    | some (Val.obj m) => m
    | _ => []
  h.writeField b.capsId ns (Val.obj (spread base opts))

/-- Method `build()`: `Object.freeze({ ...this.caps })` — a frozen shallow copy,
allocated as a fresh object. -/
def CapabilityBuilder.build (b : CapabilityBuilder) (h : Heap) : Nat × Heap :=
  h.alloc ⟨b.fields h, true⟩

/-- Method `buildMutable()`: `{ ...this.caps }` — a shallow copy the caller may
keep mutating; only its contents matter to the embedded code. -/
def CapabilityBuilder.buildMutable (b : CapabilityBuilder) (h : Heap) :
    List (String × Val) :=
  b.fields h

/-- Source `mergeVendor(builder, ns, defaults)` from `providers/_caps.ts`:
read the current nested record at `ns` out of `buildMutable()`,
merge as `{ ...defaults, ...current }` (caller wins), and store it
back with `builder.option(ns, merged)`. -/
def mergeVendor (b : CapabilityBuilder) (ns : String)
    (defaults : List (String × Val)) (h : Heap) : CapabilityBuilder × Heap :=
  let current : List (String × Val) :=
    match getKey (b.buildMutable h) ns with
    | some (Val.obj m) => m
    | _ => []
  let merged := spread defaults current
  (b, b.option ns (Val.obj merged) h)

/-! ## Builder mutations as a syntax of operations -/

/-- One mutating call on a `CapabilityBuilder` (the escape hatches; the
named setters are instances of `appium`/`option` with a fixed key), plus
`build`, which allocates but does not mutate. -/
inductive BOp where
  | option : String → Val → BOp
  | appium : String → Val → BOp
  | setIf : String → Val → BOp
  | unset : String → BOp
  | merge : List (String × Val) → BOp
  | vendor : String → List (String × Val) → BOp
  | build : BOp

def applyOp : CapabilityBuilder × Heap → BOp → CapabilityBuilder × Heap
  | (b, h), BOp.option k v => (b, b.option k v h)
  | (b, h), BOp.appium k v => (b, b.appium k v h)
  | (b, h), BOp.setIf k v => (b, b.setIf k v h)
  | (b, h), BOp.unset k => (b, b.unset k h)
  | (b, h), BOp.merge o => b.merge o h
  | (b, h), BOp.vendor ns opts => (b, b.vendor ns opts h)
  | (b, h), BOp.build => (b, (b.build h).2)

def applyOps (s : CapabilityBuilder × Heap) (ops : List BOp) :
    CapabilityBuilder × Heap :=
  ops.foldl applyOp s

/-! ## Fixture resource ledger (tests/fixtures/session.ts) -/

/-- One teardown closure pushed onto the fixture ledger: its identity and
whether invoking it throws. -/
structure Closure where
  cid : Nat
  fails : Bool
deriving DecidableEq

/-- One Provider cached in the fixture's `providers` map, and whether its
`cleanup()` throws. -/
structure SProvider where
  pid : Nat
  cleanupFails : Bool
deriving DecidableEq

/-- Observable cleanup events: a teardown-closure invocation, or a
provider `cleanup()` call; the flag records whether the call threw
(and was swallowed). -/
inductive Event where
  | teardown : Nat → Bool → Event
  | providerCleanup : Nat → Bool → Event
deriving DecidableEq

/-- The `while (resources.length) { const fn = resources.pop()!;
try { await fn() } catch { /* ignore */ } }` loop: pop from the end,
invoke, swallow the error, repeat. -/
def drainLoop (cs : List Closure) : List Event :=
  if hne : cs = [] then []
  else
    let c := cs.getLast hne
    Event.teardown c.cid c.fails :: drainLoop cs.dropLast
termination_by cs.length
decreasing_by
  simp only [List.length_dropLast]
  have hpos : 0 < cs.length := List.length_pos.mpr hne
  omega

/-- Per-fixture session state: the resource ledger (in push order; pops
come from the end) and the providers cached during the session (in
insertion order, as a JS `Map` iterates). -/
structure SessionState where
  resources : List Closure
  providers : List SProvider

/-- Source `session.cleanup()`: drain the ledger in reverse order swallowing
errors, then call `cleanup()` on every cached provider, also swallowing
errors. -/
def sessionCleanup (s : SessionState) : SessionState × List Event :=
  (⟨[], s.providers⟩,
   drainLoop s.resources
     ++ s.providers.map (fun p => Event.providerCleanup p.pid p.cleanupFails))

/-! ## HTTP client ownership layer (ApiClient in DeviceBroker.ts) -/

/-- A Playwright `APIRequestContext` as the client sees it: its identity
and whether `dispose()` on it rejects. -/
structure Ctx where
  ctxId : Nat
  failsOnClose : Bool

/-- State of an `ApiClient`: the `_ownedContexts` set (insertion order) plus a
fresh-identity counter for `request.newContext(...)`. -/
structure ApiClientState where
  ownedContexts : List Ctx
  nextCtx : Nat

/-- JS `Set.add`: no duplicate identities, insertion order kept. -/
def addCtx (s : List Ctx) (c : Ctx) : List Ctx :=
  if s.any (fun x => x.ctxId == c.ctxId) then s else s ++ [c]

/-- Source `withContext(ctx, fn)`: reuse a caller-supplied context untracked, or
create a fresh one and track it in `_ownedContexts`.  `freshFails` is the
environment's choice of whether the new context will fail on close.
Returns the context `fn` runs against and the updated client state. -/
def withContext (s : ApiClientState) (ctx : Option Ctx) (freshFails : Bool) :
    Ctx × ApiClientState :=
  match ctx with
  | some c => (c, s)
  | none =>
      let c : Ctx := ⟨s.nextCtx, freshFails⟩
      (c, ⟨addCtx s.ownedContexts c, s.nextCtx + 1⟩)

/-- The HTTP verbs of the client; each one destructures
`{ context, ...opts }` and delegates to `withContext`. -/
inductive Verb where
  | get | post | put | delete | patch | head
deriving DecidableEq

/-- Any verb call `client.get/post/put/delete/patch/head(path, options)`:
`return this.withContext(context, (ctx) => ctx.verb(path, opts))`. -/
def ApiClient.request (_ : Verb) (s : ApiClientState) (ctx : Option Ctx)
    (freshFails : Bool) : Ctx × ApiClientState :=
  withContext s ctx freshFails

/-- The `for (const ctx of this._ownedContexts) { try { await
ctx.dispose() } catch (e) { errors.push(e) } }` loop: first component is
the identities attempted, second the identities whose close failed. -/
def disposeLoop : List Ctx → List Nat × List Nat
  | [] => ([], [])
  | c :: rest =>
      let r := disposeLoop rest
      (c.ctxId :: r.1, if c.failsOnClose then c.ctxId :: r.2 else r.2)

/-- Source `dispose()`: attempt to close every owned context, clear the set
unconditionally, then throw one `AggregateError` carrying all failures if
any occurred (`some errors`), else return normally (`none`). -/
def dispose (s : ApiClientState) :
    ApiClientState × List Nat × Option (List Nat) :=
  let r := disposeLoop s.ownedContexts
  (⟨[], s.nextCtx⟩, r.1, if r.2.isEmpty then none else some r.2)

/-! ## Provider registry (ProviderFactory) -/

inductive ProviderKind where
  | browserstack | saucelabs | local
deriving DecidableEq

/-- A constructed provider: its class and its object identity. -/
structure ProviderInstance where
  kind : ProviderKind
  iid : Nat
deriving DecidableEq

/-- The static `ProviderFactory.instances` cache plus a fresh-identity
counter standing for `new ...Provider()` allocations. -/
structure FactoryState where
  instances : List (String × ProviderInstance)
  nextIid : Nat

/-- The `switch (providerName)` of `getProvider`: unrecognized names fall
through to the local provider. -/
def providerKindFor (name : String) : ProviderKind :=
  if name = "browserstack" then ProviderKind.browserstack
  else if name = "saucelabs" ∨ name = "sauce" then ProviderKind.saucelabs
  else ProviderKind.local

/-- Name resolution `(config.provider || "local").toLowerCase()`: an absent or empty
configured name falls back to `"local"`. -/
def normalizeProviderName (cfgProvider : Option String) : String :=
  jsToLower
    (match cfgProvider with
     | none => "local"
     | some s => if s = "" then "local" else s)

/-- Source `ProviderFactory.getProvider()`: look the normalized name up in the
cache; on a miss construct the matching provider, cache it, return it. -/
def ProviderFactory.getProvider (cfgProvider : Option String)
    (st : FactoryState) : ProviderInstance × FactoryState :=
  let providerName := normalizeProviderName cfgProvider
  match lookupA providerName st.instances with
  | some p => (p, st)
  | none =>
      let p : ProviderInstance := ⟨providerKindFor providerName, st.nextIid⟩
      (p, ⟨(providerName, p) :: st.instances, st.nextIid + 1⟩)

/-- Reachable-cache invariant: cached identities are pairwise distinct
and below the allocation counter. -/
def FactoryState.WF (st : FactoryState) : Prop :=
  (st.instances.map (fun e => e.2.iid)).Nodup
    ∧ ∀ e ∈ st.instances, e.2.iid < st.nextIid

/-! ## Device broker initialisation (DeviceBroker.ensureInit) -/

/-- The broker's observable initialisation state: the `initialised` flag
plus a count of `provider.init()` invocations. -/
structure BrokerState where
  initialised : Bool
  initCalls : Nat
deriving DecidableEq

/-- Constructor `new DeviceBroker()`: provider obtained, not yet initialised. -/
def DeviceBroker.fresh : BrokerState := ⟨false, 0⟩

/-- Source `ensureInit()`: `if (!this.initialised) { await this.provider.init();
this.initialised = true }`. -/
def ensureInit (s : BrokerState) : BrokerState :=
  if s.initialised then s else ⟨true, s.initCalls + 1⟩

/-! ## Adapter teardown (PlaywrightAdapter / AppiumAdapter) -/

/-- A Playwright page/context/browser handle: whether it is closed and
whether closing it rejects. -/
structure Handle where
  closed : Bool
  failsOnClose : Bool
deriving DecidableEq

/-- Close `handle.close()`: a no-op on an already-closed handle, otherwise
either closes it or rejects. -/
def closeHandle (h : Handle) : Except Unit Handle :=
  if h.closed then Except.ok h
  else if h.failsOnClose then Except.error ()
  else Except.ok ⟨true, h.failsOnClose⟩

/-- Optional chaining `this.page?.close()`: optional chaining skips an absent handle. -/
def closeOpt : Option Handle → Except Unit (Option Handle)
  | none => Except.ok none
  | some h => (closeHandle h).map some

/-- JS `try { e } catch {}`: keep the previous value when `e` throws. -/
def jsTryIgnore {α : Type} (x : Except Unit α) (fallback : α) : α :=
  match x with
  | Except.ok a => a
  | Except.error _ => fallback

/-- The web adapter's handles. -/
structure PWState where
  page : Option Handle
  context : Option Handle
  browser : Option Handle
deriving DecidableEq

/-- Source `PlaywrightAdapter.teardown()`: three independent `try { ... } catch
{}` closes — page, then context, then browser. -/
def PlaywrightAdapter.teardown (s : PWState) : PWState :=
  let p := jsTryIgnore (closeOpt s.page) s.page
  let c := jsTryIgnore (closeOpt s.context) s.context
  let b := jsTryIgnore (closeOpt s.browser) s.browser
  ⟨p, c, b⟩

/-- A WDIO driver session: whether `deleteSession()` rejects. -/
structure Driver where
  deleteFails : Bool
deriving DecidableEq

/-- Call `driver.deleteSession()`. -/
def deleteSession (d : Driver) : Except Unit Unit :=
  if d.deleteFails then Except.error () else Except.ok ()

/-- Source `AppiumAdapter.teardown()`: when a driver exists,
`await this.driver.deleteSession().catch(() => void 0)` (the rejection is
swallowed and recorded here as data, never re-raised), then
`this.driver = undefined`. -/
def AppiumAdapter.teardown :
    Option Driver → Option Driver × List (Except Unit Unit)
  | none => (none, [])
  | some d => (none, [deleteSession d])

/-! ## Record lemmas -/

theorem getKey_setKey_same (o : List (String × Val)) (k : String) (v : Val) :
    getKey (setKey o k v) k = some v := by
  induction o with
  | nil => simp [setKey, getKey]
  | cons p rest ih =>
      obtain ⟨k₁, v₁⟩ := p
      by_cases h : k₁ = k
      · simp [setKey, getKey, h]
      · simp [setKey, getKey, h, ih]

theorem getKey_setKey_other (o : List (String × Val)) (k k₂ : String) (v : Val)
    (h : k₂ ≠ k) : getKey (setKey o k v) k₂ = getKey o k₂ := by
  have h' : k ≠ k₂ := Ne.symm h
  induction o with
  | nil => simp [setKey, getKey, h']
  | cons p rest ih =>
      obtain ⟨k₁, v₁⟩ := p
      by_cases h₁ : k₁ = k
      · subst h₁
        simp [setKey, getKey, h']
      · simp only [setKey, if_neg h₁, getKey]
        by_cases h₂ : k₁ = k₂ <;> simp [h₂, ih]

/-- Keys absent from the right spread operand keep their left value. -/
theorem getKey_spread_of_right_none (a b : List (String × Val)) (k : String)
    (h : getKey b k = none) : getKey (spread a b) k = getKey a k := by
  induction b generalizing a with
  | nil => simp [spread]
  | cons p rest ih =>
      obtain ⟨k₁, v₁⟩ := p
      simp only [getKey] at h
      by_cases h₁ : k₁ = k
      · simp [h₁] at h
      · simp only [if_neg h₁] at h
        show getKey (spread (setKey a k₁ v₁) rest) k = getKey a k
        rw [ih (setKey a k₁ v₁) h, getKey_setKey_other _ _ _ _ (fun hh => h₁ hh.symm)]

/-- A key that is not among an object's keys reads as `none`. -/
theorem getKey_eq_none_of_not_mem (o : List (String × Val)) (k : String)
    (h : k ∉ o.map Prod.fst) : getKey o k = none := by
  induction o with
  | nil => rfl
  | cons p rest ih =>
      obtain ⟨k₁, v₁⟩ := p
      simp only [List.map_cons, List.mem_cons, not_or] at h
      simp only [getKey, if_neg (Ne.symm h.1)]
      exact ih h.2

/-- A key that reads as `some` is among the object's keys. -/
theorem mem_keys_of_getKey_eq_some (o : List (String × Val)) (k : String)
    (v : Val) (h : getKey o k = some v) : k ∈ o.map Prod.fst := by
  induction o with
  | nil => simp [getKey] at h
  | cons p rest ih =>
      obtain ⟨k₁, v₁⟩ := p
      simp only [getKey] at h
      by_cases h₁ : k₁ = k
      · simp [h₁]
      · simp only [if_neg h₁] at h
        simp [ih h]

/-- Keys present in the right spread operand win, provided the right
operand binds each key once. -/
theorem getKey_spread_of_right_some (a b : List (String × Val)) (k : String)
    (v : Val) (hnd : (b.map Prod.fst).Nodup) (h : getKey b k = some v) :
    getKey (spread a b) k = some v := by
  induction b generalizing a with
  | nil => simp [getKey] at h
  | cons p rest ih =>
      obtain ⟨k₁, v₁⟩ := p
      simp only [List.map_cons, List.nodup_cons] at hnd
      simp only [getKey] at h
      by_cases h₁ : k₁ = k
      · subst h₁
        simp only [if_pos rfl] at h
        have hv : v₁ = v := by injection h
        subst hv
        show getKey (spread (setKey a k₁ v₁) rest) k₁ = some v₁
        have hrest : getKey rest k₁ = none := by
          rcases hh : getKey rest k₁ with _ | w
          · rfl
          · exact absurd (mem_keys_of_getKey_eq_some rest k₁ w hh) hnd.1
        rw [getKey_spread_of_right_none _ _ _ hrest, getKey_setKey_same]
      · simp only [if_neg h₁] at h
        show getKey (spread (setKey a k₁ v₁) rest) k = some v
        exact ih (setKey a k₁ v₁) hnd.2 h

/-! ## Heap lemmas -/

theorem writeEntry_fst (r : Nat) (k : String) (v : Val) (p : Nat × HObj) :
    (writeEntry r k v p).1 = p.1 := by
  unfold writeEntry
  split <;> rfl

theorem writeEntry_of_ne (r : Nat) (k : String) (v : Val) (p : Nat × HObj)
    (h : p.1 ≠ r) : writeEntry r k v p = p := by
  unfold writeEntry
  rw [if_neg]
  intro hc
  exact h hc.1

theorem writeEntry_of_frozen (r : Nat) (k : String) (v : Val) (p : Nat × HObj)
    (h : p.2.frozen = true) : writeEntry r k v p = p := by
  unfold writeEntry
  rw [if_neg]
  intro hc
  rw [hc.2] at h
  exact Bool.noConfusion h

theorem deleteEntry_fst (r : Nat) (k : String) (p : Nat × HObj) :
    (deleteEntry r k p).1 = p.1 := by
  unfold deleteEntry
  split <;> rfl

theorem deleteEntry_of_ne (r : Nat) (k : String) (p : Nat × HObj)
    (h : p.1 ≠ r) : deleteEntry r k p = p := by
  unfold deleteEntry
  rw [if_neg]
  intro hc
  exact h hc.1

theorem deleteEntry_of_frozen (r : Nat) (k : String) (p : Nat × HObj)
    (h : p.2.frozen = true) : deleteEntry r k p = p := by
  unfold deleteEntry
  rw [if_neg]
  intro hc
  rw [hc.2] at h
  exact Bool.noConfusion h

/-- Mapping a key-preserving function that fixes every entry numbered `r`
leaves lookups of `r` unchanged. -/
theorem lookupA_map_preserved {β : Type} (l : List (Nat × β))
    (f : Nat × β → Nat × β) (r : Nat) (hkey : ∀ p, (f p).1 = p.1)
    (hfix : ∀ p, p.1 = r → f p = p) :
    lookupA r (l.map f) = lookupA r l := by
  induction l with
  | nil => rfl
  | cons p rest ih =>
      obtain ⟨a, o⟩ := p
      simp only [List.map_cons, lookupA]
      by_cases ha : a = r
      · rw [hfix (a, o) ha]
        simp [lookupA, ha]
      · have hfa : (f (a, o)).1 = a := hkey (a, o)
        rw [show (f (a, o)) = ((f (a, o)).1, (f (a, o)).2) from rfl, hfa]
        simp only [lookupA, if_neg ha, ih]

theorem Heap.lookup_writeField_of_ne (h : Heap) (rt r : Nat) (k : String)
    (v : Val) (hne : r ≠ rt) :
    (h.writeField rt k v).lookup r = h.lookup r := by
  apply lookupA_map_preserved
  · exact writeEntry_fst rt k v
  · intro p hp
    apply writeEntry_of_ne
    rw [hp]
    exact hne

theorem Heap.lookup_deleteField_of_ne (h : Heap) (rt r : Nat) (k : String)
    (hne : r ≠ rt) :
    (h.deleteField rt k).lookup r = h.lookup r := by
  apply lookupA_map_preserved
  · exact deleteEntry_fst rt k
  · intro p hp
    apply deleteEntry_of_ne
    rw [hp]
    exact hne

theorem lookupA_cons_of_fst_ne {α β : Type} [DecidableEq α] (p : α × β)
    (l : List (α × β)) (r : α) (h : p.1 ≠ r) :
    lookupA r (p :: l) = lookupA r l := by
  obtain ⟨a, b⟩ := p
  simp only [lookupA]
  exact if_neg h

theorem lookupA_cons_of_fst_eq {α β : Type} [DecidableEq α] (p : α × β)
    (l : List (α × β)) (r : α) (h : p.1 = r) :
    lookupA r (p :: l) = some p.2 := by
  obtain ⟨a, b⟩ := p
  simp only [lookupA]
  exact if_pos h

/-- Writing to an object whose first heap entry is frozen changes nothing
visible: `Object.freeze` blocks the assignment. -/
theorem lookupA_writeEntry_frozen (l : List (Nat × HObj)) (r : Nat)
    (k : String) (v : Val) (o : HObj) (hl : lookupA r l = some o)
    (hfr : o.frozen = true) :
    lookupA r (l.map (writeEntry r k v)) = some o := by
  induction l with
  | nil => simp [lookupA] at hl
  | cons p rest ih =>
      obtain ⟨a, ob⟩ := p
      simp only [lookupA] at hl
      rw [List.map_cons]
      by_cases ha : a = r
      · rw [if_pos ha] at hl
        have ho : ob = o := by injection hl
        subst ho
        rw [writeEntry_of_frozen r k v (a, ob) hfr,
            lookupA_cons_of_fst_eq (a, ob) _ r ha]
      · rw [if_neg ha] at hl
        rw [lookupA_cons_of_fst_ne _ _ r
            (by rw [writeEntry_fst r k v (a, ob)]; exact ha)]
        exact ih hl

theorem lookupA_deleteEntry_frozen (l : List (Nat × HObj)) (r : Nat)
    (k : String) (o : HObj) (hl : lookupA r l = some o)
    (hfr : o.frozen = true) :
    lookupA r (l.map (deleteEntry r k)) = some o := by
  induction l with
  | nil => simp [lookupA] at hl
  | cons p rest ih =>
      obtain ⟨a, ob⟩ := p
      simp only [lookupA] at hl
      rw [List.map_cons]
      by_cases ha : a = r
      · rw [if_pos ha] at hl
        have ho : ob = o := by injection hl
        subst ho
        rw [deleteEntry_of_frozen r k (a, ob) hfr,
            lookupA_cons_of_fst_eq (a, ob) _ r ha]
      · rw [if_neg ha] at hl
        rw [lookupA_cons_of_fst_ne _ _ r
            (by rw [deleteEntry_fst r k (a, ob)]; exact ha)]
        exact ih hl

/-- Writing to an unfrozen object updates exactly its looked-up fields. -/
theorem lookupA_writeEntry_self (l : List (Nat × HObj)) (r : Nat)
    (k : String) (v : Val) (o : HObj) (hl : lookupA r l = some o)
    (hfr : o.frozen = false) :
    lookupA r (l.map (writeEntry r k v)) = some ⟨setKey o.fields k v, false⟩ := by
  induction l with
  | nil => simp [lookupA] at hl
  | cons p rest ih =>
      obtain ⟨a, ob⟩ := p
      simp only [lookupA] at hl
      rw [List.map_cons]
      by_cases ha : a = r
      · rw [if_pos ha] at hl
        have ho : ob = o := by injection hl
        subst ho
        have hw : writeEntry r k v (a, ob) = (a, ⟨setKey ob.fields k v, ob.frozen⟩) := by
          unfold writeEntry
          rw [if_pos ⟨ha, hfr⟩]
        rw [hw, lookupA_cons_of_fst_eq _ _ r ha, hfr]
      · rw [if_neg ha] at hl
        rw [lookupA_cons_of_fst_ne _ _ r
            (by rw [writeEntry_fst r k v (a, ob)]; exact ha)]
        exact ih hl

theorem Heap.lookup_alloc_self (h : Heap) (o : HObj) :
    (h.alloc o).2.lookup (h.alloc o).1 = some o := by
  simp [Heap.alloc, Heap.lookup, lookupA]

theorem Heap.lookup_alloc_of_lt (h : Heap) (o : HObj) (r : Nat)
    (hr : r < h.next) : (h.alloc o).2.lookup r = h.lookup r := by
  have : h.next ≠ r := Ne.symm (Nat.ne_of_lt hr)
  simp [Heap.alloc, Heap.lookup, lookupA, this]

theorem lookupA_mem {α β : Type} [DecidableEq α] (k : α)
    (l : List (α × β)) (v : β) (h : lookupA k l = some v) : (k, v) ∈ l := by
  induction l with
  | nil => simp [lookupA] at h
  | cons p rest ih =>
      obtain ⟨k₁, v₁⟩ := p
      simp only [lookupA] at h
      by_cases hk : k₁ = k
      · rw [if_pos hk] at h
        have hv : v₁ = v := by injection h
        subst hk hv
        exact List.mem_cons_self _ _
      · rw [if_neg hk] at h
        exact List.mem_cons_of_mem _ (ih h)

/-! ## Builder operation lemmas -/

/-- Builder operations never touch an already-allocated object other than
the builder's own working object. -/
theorem applyOp_preserves (r : Nat) (b : CapabilityBuilder) (h : Heap)
    (op : BOp) (h₁ : b.capsId ≠ r) (h₂ : r < h.next) :
    (applyOp (b, h) op).1.capsId ≠ r ∧ r < (applyOp (b, h) op).2.next ∧
    (applyOp (b, h) op).2.lookup r = h.lookup r := by
  have hwr : ∀ k v, (h.writeField b.capsId k v).lookup r = h.lookup r :=
    fun k v => Heap.lookup_writeField_of_ne h b.capsId r k v (Ne.symm h₁)
  cases op with
  | option k v => exact ⟨h₁, h₂, hwr k v⟩
  | appium k v => exact ⟨h₁, h₂, hwr _ v⟩
  | setIf k v =>
      cases v <;> first
        | exact ⟨h₁, h₂, rfl⟩
        | exact ⟨h₁, h₂, hwr k _⟩
  | unset k =>
      exact ⟨h₁, h₂, Heap.lookup_deleteField_of_ne h b.capsId r k (Ne.symm h₁)⟩
  | merge o =>
      exact ⟨Ne.symm (Nat.ne_of_lt h₂), Nat.lt_succ_of_lt h₂,
        Heap.lookup_alloc_of_lt h _ r h₂⟩
  | vendor ns opts => exact ⟨h₁, h₂, hwr ns _⟩
  | build =>
      exact ⟨h₁, Nat.lt_succ_of_lt h₂, Heap.lookup_alloc_of_lt h _ r h₂⟩

theorem applyOps_preserves (r : Nat) (ops : List BOp) :
    ∀ (b : CapabilityBuilder) (h : Heap), b.capsId ≠ r → r < h.next →
      (applyOps (b, h) ops).1.capsId ≠ r ∧
      r < (applyOps (b, h) ops).2.next ∧
      (applyOps (b, h) ops).2.lookup r = h.lookup r := by
  induction ops with
  | nil => exact fun b h h₁ h₂ => ⟨h₁, h₂, rfl⟩
  | cons op rest ih =>
      intro b h h₁ h₂
      have hstep := applyOp_preserves r b h op h₁ h₂
      have hrec := ih (applyOp (b, h) op).1 (applyOp (b, h) op).2
        hstep.1 hstep.2.1
      exact ⟨hrec.1, hrec.2.1, hrec.2.2.trans hstep.2.2⟩

/-! ## Ledger and client loop lemmas -/

theorem drainLoop_eq_reverse (cs : List Closure) :
    drainLoop cs = cs.reverse.map (fun c => Event.teardown c.cid c.fails) := by
  induction cs using List.reverseRecOn with
  | nil =>
      rw [drainLoop]
      simp
  | append_singleton xs c ih =>
      rw [drainLoop]
      have hne : xs ++ [c] ≠ [] := by simp
      rw [dif_neg hne]
      simp [List.getLast_append, ih]

theorem disposeLoop_eq (cs : List Ctx) :
    disposeLoop cs
      = (cs.map Ctx.ctxId,
         (cs.filter (fun c => c.failsOnClose)).map Ctx.ctxId) := by
  induction cs with
  | nil => rfl
  | cons c rest ih =>
      simp only [disposeLoop, ih, List.map_cons, List.filter_cons]
      by_cases hf : c.failsOnClose = true
      · simp [hf]
      · simp [Bool.eq_false_iff.mpr hf, hf]

/-! ## Factory lemmas -/

/-- Evaluating `getProvider` on a cache hit: return the cached instance, cache
unchanged. -/
theorem getProvider_of_lookup_some (cfg : Option String) (st : FactoryState)
    (p : ProviderInstance)
    (hl : lookupA (normalizeProviderName cfg) st.instances = some p) :
    ProviderFactory.getProvider cfg st = (p, st) := by
  simp only [ProviderFactory.getProvider]
  rw [hl]

/-- Evaluating `getProvider` on a cache miss: construct, cache, return. -/
theorem getProvider_of_lookup_none (cfg : Option String) (st : FactoryState)
    (hl : lookupA (normalizeProviderName cfg) st.instances = none) :
    ProviderFactory.getProvider cfg st
      = (⟨providerKindFor (normalizeProviderName cfg), st.nextIid⟩,
         ⟨(normalizeProviderName cfg,
            (⟨providerKindFor (normalizeProviderName cfg),
              st.nextIid⟩ : ProviderInstance)) :: st.instances,
          st.nextIid + 1⟩) := by
  simp only [ProviderFactory.getProvider]
  rw [hl]

/-- The factory cache invariant holds of the pristine cache and is
preserved by every `getProvider` call. -/
theorem getProvider_preserves_WF (cfg : Option String) (st : FactoryState)
    (h : st.WF) : (ProviderFactory.getProvider cfg st).2.WF := by
  rcases hl : lookupA (normalizeProviderName cfg) st.instances with _ | p
  · rw [getProvider_of_lookup_none cfg st hl]
    refine ⟨?_, ?_⟩
    · simp only [List.map_cons, List.nodup_cons]
      refine ⟨?_, h.1⟩
      intro hmem
      simp only [List.mem_map] at hmem
      obtain ⟨e, he, hiid⟩ := hmem
      have := h.2 e he
      omega
    · intro e he
      simp only [List.mem_cons] at he
      rcases he with rfl | he
      · exact Nat.lt_succ_self _
      · exact Nat.lt_succ_of_lt (h.2 e he)
  · rw [getProvider_of_lookup_some cfg st p hl]
    exact h

/-! ## Adapter lemmas -/

theorem teardownStep_idem (oh : Option Handle) :
    jsTryIgnore (closeOpt (jsTryIgnore (closeOpt oh) oh))
        (jsTryIgnore (closeOpt oh) oh)
      = jsTryIgnore (closeOpt oh) oh := by
  cases oh with
  | none => rfl
  | some h =>
      obtain ⟨hc, hf⟩ := h
      cases hc <;> cases hf <;> rfl

/-! ## Claim theorems -/

/-- C1: `mergeVendor(builder, ns, defaults)` merges `defaults` into the
nested object already stored under `ns` without discarding its keys; on a
key clash the already-set (caller-controlled) value wins, and defaults
only fill gaps. -/
theorem mergeVendor_caller_wins (b : CapabilityBuilder) (h : Heap)
    (ns : String) (defaults m : List (String × Val)) (o : HObj)
    (hl : h.lookup b.capsId = some o) (hfr : o.frozen = false)
    (hns : getKey o.fields ns = some (Val.obj m))
    (hnd : (m.map Prod.fst).Nodup) :
    getKey (CapabilityBuilder.fields b (mergeVendor b ns defaults h).2) ns
        = some (Val.obj (spread defaults m))
    ∧ (∀ k v, getKey m k = some v → getKey (spread defaults m) k = some v)
    ∧ (∀ k, getKey m k = none →
        getKey (spread defaults m) k = getKey defaults k) := by
  have hbf : b.fields h = o.fields := by
    unfold CapabilityBuilder.fields
    rw [hl]
  have hmv : (mergeVendor b ns defaults h).2
      = h.writeField b.capsId ns (Val.obj (spread defaults m)) := by
    unfold mergeVendor CapabilityBuilder.buildMutable CapabilityBuilder.option
    rw [hbf, hns]
  refine ⟨?_, ?_, ?_⟩
  · rw [hmv]
    have hlook : (h.writeField b.capsId ns (Val.obj (spread defaults m))).lookup
        b.capsId = some ⟨setKey o.fields ns (Val.obj (spread defaults m)), false⟩ :=
      lookupA_writeEntry_self h.objs b.capsId ns (Val.obj (spread defaults m)) o hl hfr
    unfold CapabilityBuilder.fields
    rw [hlook]
    exact getKey_setKey_same o.fields ns (Val.obj (spread defaults m))
  · exact fun k v hk => getKey_spread_of_right_some defaults m k v hnd hk
  · exact fun k hk => getKey_spread_of_right_none defaults m k hk

/-- Witness: a builder whose `bstack:options` namespace already holds
`{a: 9}`, merged with defaults `{a: 1, b: 2}`, keeps `a = 9` and gains
`b = 2` — the example of the claim. -/
theorem mergeVendor_caller_wins_witness :
    (((CapabilityBuilder.android "UiAutomator2" emptyHeap).1.option
        "bstack:options" (Val.obj [("a", Val.num 9)])
        (CapabilityBuilder.android "UiAutomator2" emptyHeap).2).lookup
        (CapabilityBuilder.android "UiAutomator2" emptyHeap).1.capsId
      = some ⟨[("platformName", Val.str "Android"),
              ("appium:automationName", Val.str "UiAutomator2"),
              ("bstack:options", Val.obj [("a", Val.num 9)])], false⟩)
    ∧ (getKey
        (CapabilityBuilder.fields
          (CapabilityBuilder.android "UiAutomator2" emptyHeap).1
          (mergeVendor (CapabilityBuilder.android "UiAutomator2" emptyHeap).1
            "bstack:options" [("a", Val.num 1), ("b", Val.num 2)]
            ((CapabilityBuilder.android "UiAutomator2" emptyHeap).1.option
              "bstack:options" (Val.obj [("a", Val.num 9)])
              (CapabilityBuilder.android "UiAutomator2" emptyHeap).2)).2)
        "bstack:options"
      = some (Val.obj (spread [("a", Val.num 1), ("b", Val.num 2)]
          [("a", Val.num 9)])))
    ∧ spread [("a", Val.num 1), ("b", Val.num 2)] [("a", Val.num 9)]
        = [("a", Val.num 9), ("b", Val.num 2)] :=
  ⟨rfl,
   (mergeVendor_caller_wins
      (CapabilityBuilder.android "UiAutomator2" emptyHeap).1
      ((CapabilityBuilder.android "UiAutomator2" emptyHeap).1.option
        "bstack:options" (Val.obj [("a", Val.num 9)])
        (CapabilityBuilder.android "UiAutomator2" emptyHeap).2)
      "bstack:options" [("a", Val.num 1), ("b", Val.num 2)]
      [("a", Val.num 9)]
      ⟨[("platformName", Val.str "Android"),
        ("appium:automationName", Val.str "UiAutomator2"),
        ("bstack:options", Val.obj [("a", Val.num 9)])], false⟩
      rfl rfl rfl (by decide)).1,
   rfl⟩

/-- C2: for acquisitions A then B then C in one fixture, `cleanup()`
invokes their teardowns in order C, B, A (every closure is invoked even
when one throws — the fails flags are arbitrary and errors are
swallowed), empties the ledger, and calls each cached provider's
`cleanup()` only after the ledger is drained. -/
theorem sessionCleanup_lifo (A B C : Closure) (ps : List SProvider) :
    (sessionCleanup ⟨[A, B, C], ps⟩).2
        = [Event.teardown C.cid C.fails, Event.teardown B.cid B.fails,
           Event.teardown A.cid A.fails]
          ++ ps.map (fun p => Event.providerCleanup p.pid p.cleanupFails)
    ∧ (sessionCleanup ⟨[A, B, C], ps⟩).1.resources = []
    ∧ ∀ c ∈ [A, B, C],
        Event.teardown c.cid c.fails ∈ (sessionCleanup ⟨[A, B, C], ps⟩).2 := by
  have h1 : (sessionCleanup ⟨[A, B, C], ps⟩).2
      = [Event.teardown C.cid C.fails, Event.teardown B.cid B.fails,
         Event.teardown A.cid A.fails]
        ++ ps.map (fun p => Event.providerCleanup p.pid p.cleanupFails) := by
    show drainLoop [A, B, C] ++ _ = _
    rw [drainLoop_eq_reverse]
    simp
  refine ⟨h1, rfl, ?_⟩
  intro c hc
  rw [h1]
  simp only [List.mem_cons, List.not_mem_nil, or_false] at hc
  rcases hc with rfl | rfl | rfl <;> simp

/-- Witness: three concrete acquisitions, the middle teardown throwing,
one provider. -/
theorem sessionCleanup_lifo_witness :
    (sessionCleanup ⟨[⟨1, false⟩, ⟨2, true⟩, ⟨3, false⟩], [⟨7, true⟩]⟩).2
        = [Event.teardown 3 false, Event.teardown 2 true,
           Event.teardown 1 false, Event.providerCleanup 7 true]
    ∧ Event.teardown 2 true
        ∈ (sessionCleanup ⟨[⟨1, false⟩, ⟨2, true⟩, ⟨3, false⟩],
            [⟨7, true⟩]⟩).2 :=
  ⟨(sessionCleanup_lifo ⟨1, false⟩ ⟨2, true⟩ ⟨3, false⟩ [⟨7, true⟩]).1,
   (sessionCleanup_lifo ⟨1, false⟩ ⟨2, true⟩ ⟨3, false⟩ [⟨7, true⟩]).2.2
     ⟨2, true⟩ (by decide)⟩

/-- C3: `dispose()` attempts to close every tracked context (even when
some closes fail), clears the tracked set unconditionally, raises an
aggregate error iff at least one close failed, and the aggregate
contains exactly the failures. -/
theorem dispose_closes_all (s : ApiClientState) :
    (dispose s).2.1 = s.ownedContexts.map Ctx.ctxId
    ∧ (dispose s).1.ownedContexts = []
    ∧ ((dispose s).2.2 ≠ none ↔ ∃ c ∈ s.ownedContexts, c.failsOnClose = true)
    ∧ ∀ l, (dispose s).2.2 = some l →
        l = (s.ownedContexts.filter (fun c => c.failsOnClose)).map Ctx.ctxId := by
  have hd := disposeLoop_eq s.ownedContexts
  have h1 : (dispose s).2.1 = s.ownedContexts.map Ctx.ctxId := by
    show (disposeLoop s.ownedContexts).1 = _
    rw [hd]
  have hkey : (dispose s).2.2
      = if ((s.ownedContexts.filter (fun c => c.failsOnClose)).map
            Ctx.ctxId).isEmpty
        then none
        else some ((s.ownedContexts.filter (fun c => c.failsOnClose)).map
            Ctx.ctxId) := by
    show (if (disposeLoop s.ownedContexts).2.isEmpty then none
          else some (disposeLoop s.ownedContexts).2) = _
    rw [hd]
  refine ⟨h1, rfl, ?_, ?_⟩
  · rw [hkey]
    by_cases he : ((s.ownedContexts.filter
        (fun c => c.failsOnClose)).map Ctx.ctxId).isEmpty
    · rw [if_pos he]
      simp only [ne_eq, not_true_eq_false, false_iff, not_exists]
      intro c hc
      have hfil : s.ownedContexts.filter (fun c => c.failsOnClose) = [] := by
        have := List.isEmpty_iff.mp he
        exact List.map_eq_nil_iff.mp this
      have hmem : c ∈ s.ownedContexts.filter (fun c => c.failsOnClose) :=
        List.mem_filter.mpr ⟨hc.1, hc.2⟩
      rw [hfil] at hmem
      exact List.not_mem_nil c hmem
    · rw [if_neg he]
      simp only [ne_eq, reduceCtorEq, not_false_eq_true, true_iff]
      have hfil : s.ownedContexts.filter (fun c => c.failsOnClose) ≠ [] := by
        intro hnil
        rw [hnil] at he
        exact he rfl
      obtain ⟨c, hc⟩ := List.exists_mem_of_ne_nil _ hfil
      have hm := List.mem_filter.mp hc
      exact ⟨c, hm.1, hm.2⟩
  · intro l hl
    rw [hkey] at hl
    by_cases he : ((s.ownedContexts.filter
        (fun c => c.failsOnClose)).map Ctx.ctxId).isEmpty
    · rw [if_pos he] at hl
      exact Option.noConfusion hl
    · rw [if_neg he] at hl
      have := Option.some.inj hl
      exact this.symm

/-- Witness: two owned contexts, the first of which throws on close:
both closes are attempted, the set is cleared, one aggregate error is
raised and it lists exactly the failure. -/
theorem dispose_closes_all_witness :
    (dispose ⟨[⟨1, true⟩, ⟨2, false⟩], 5⟩).2.1 = [1, 2]
    ∧ (dispose ⟨[⟨1, true⟩, ⟨2, false⟩], 5⟩).1.ownedContexts = []
    ∧ (dispose ⟨[⟨1, true⟩, ⟨2, false⟩], 5⟩).2.2 = some [1]
    ∧ ([1] : List Nat)
        = (([⟨1, true⟩, ⟨2, false⟩] : List Ctx).filter
            (fun c => c.failsOnClose)).map Ctx.ctxId :=
  ⟨(dispose_closes_all ⟨[⟨1, true⟩, ⟨2, false⟩], 5⟩).1,
   (dispose_closes_all ⟨[⟨1, true⟩, ⟨2, false⟩], 5⟩).2.1,
   rfl,
   (dispose_closes_all ⟨[⟨1, true⟩, ⟨2, false⟩], 5⟩).2.2.2 [1] rfl⟩

/-- C4: a caller-supplied context is used but never tracked and never
closed by `dispose()`; without one, the client creates a fresh context,
tracks it, and `dispose()` closes exactly the tracked contexts
(including the fresh one). -/
theorem apiClient_ownership (v : Verb) (s : ApiClientState) (c : Ctx)
    (f : Bool) :
    ApiClient.request v s (some c) f = (c, s)
    ∧ (c.ctxId ∉ s.ownedContexts.map Ctx.ctxId →
        c.ctxId ∉ (dispose (ApiClient.request v s (some c) f).2).2.1)
    ∧ (ApiClient.request v s none f).1 = ⟨s.nextCtx, f⟩
    ∧ ((∀ x ∈ s.ownedContexts, x.ctxId < s.nextCtx) →
        (ApiClient.request v s none f).2.ownedContexts
          = s.ownedContexts ++ [⟨s.nextCtx, f⟩])
    ∧ (∀ st : ApiClientState,
        (dispose st).2.1 = st.ownedContexts.map Ctx.ctxId)
    ∧ ((∀ x ∈ s.ownedContexts, x.ctxId < s.nextCtx) →
        s.nextCtx ∈ (dispose (ApiClient.request v s none f).2).2.1) := by
  have hdisp : ∀ st : ApiClientState,
      (dispose st).2.1 = st.ownedContexts.map Ctx.ctxId := by
    intro st
    show (disposeLoop st.ownedContexts).1 = _
    rw [disposeLoop_eq]
  have hadd : (∀ x ∈ s.ownedContexts, x.ctxId < s.nextCtx) →
      addCtx s.ownedContexts ⟨s.nextCtx, f⟩
        = s.ownedContexts ++ [⟨s.nextCtx, f⟩] := by
    intro hwf
    unfold addCtx
    rw [if_neg]
    simp only [List.any_eq_true, not_exists, not_and]
    intro x hx
    have hlt := hwf x hx
    simp only [beq_iff_eq]
    omega
  refine ⟨rfl, ?_, rfl, hadd, hdisp, ?_⟩
  · intro hmem
    show c.ctxId ∉ (dispose s).2.1
    rw [hdisp s]
    exact hmem
  · intro hwf
    rw [hdisp]
    show s.nextCtx ∈ (addCtx s.ownedContexts ⟨s.nextCtx, f⟩).map Ctx.ctxId
    rw [hadd hwf]
    simp

/-- Witness: a caller-supplied context with identity 9 against a fresh
client is used, untracked and never closed; a context-free call creates
and tracks context 0, which `dispose()` then closes. -/
theorem apiClient_ownership_witness :
    ApiClient.request Verb.get ⟨[], 0⟩ (some ⟨9, false⟩) false
        = (⟨9, false⟩, ⟨[], 0⟩)
    ∧ (9 : Nat) ∉ (dispose
        (ApiClient.request Verb.get ⟨[], 0⟩ (some ⟨9, false⟩) false).2).2.1
    ∧ (ApiClient.request Verb.get ⟨[], 0⟩ none false).2.ownedContexts
        = [⟨0, false⟩]
    ∧ (0 : Nat) ∈ (dispose
        (ApiClient.request Verb.get ⟨[], 0⟩ none false).2).2.1 :=
  ⟨(apiClient_ownership Verb.get ⟨[], 0⟩ ⟨9, false⟩ false).1,
   (apiClient_ownership Verb.get ⟨[], 0⟩ ⟨9, false⟩ false).2.1 (by simp),
   (apiClient_ownership Verb.get ⟨[], 0⟩ ⟨9, false⟩ false).2.2.2.1
     (by simp),
   (apiClient_ownership Verb.get ⟨[], 0⟩ ⟨9, false⟩ false).2.2.2.2.2
     (by simp)⟩

/-- C5 counterexample: `"Sauce"` and `"sauce"` are two different
configured names, yet the factory returns the reference-identical
provider instance for both, because the name is lower-cased before the
cache lookup. -/
theorem getProvider_distinct_names_counterexample :
    ("Sauce" : String) ≠ "sauce"
    ∧ (ProviderFactory.getProvider (some "sauce")
        (ProviderFactory.getProvider (some "Sauce") ⟨[], 0⟩).2).1
      = (ProviderFactory.getProvider (some "Sauce") ⟨[], 0⟩).1 :=
  ⟨by decide, rfl⟩

/-- C5 (amended): repeated `getProvider()` under one configured name
returns the reference-identical cached instance (the first call
constructs and caches it); two configured names that remain distinct
after normalisation (lower-casing, empty/absent ↦ "local") yield
distinct instances. -/
theorem getProvider_memoizes (cfg₁ cfg₂ : Option String) (st : FactoryState)
    (hwf : st.WF) :
    ProviderFactory.getProvider cfg₁ (ProviderFactory.getProvider cfg₁ st).2
        = ((ProviderFactory.getProvider cfg₁ st).1,
           (ProviderFactory.getProvider cfg₁ st).2)
    ∧ lookupA (normalizeProviderName cfg₁)
        (ProviderFactory.getProvider cfg₁ st).2.instances
        = some (ProviderFactory.getProvider cfg₁ st).1
    ∧ (normalizeProviderName cfg₁ ≠ normalizeProviderName cfg₂ →
        (ProviderFactory.getProvider cfg₂
            (ProviderFactory.getProvider cfg₁ st).2).1
          ≠ (ProviderFactory.getProvider cfg₁ st).1) := by
  have hcache : lookupA (normalizeProviderName cfg₁)
      (ProviderFactory.getProvider cfg₁ st).2.instances
      = some (ProviderFactory.getProvider cfg₁ st).1 := by
    rcases hl : lookupA (normalizeProviderName cfg₁) st.instances with _ | p
    · rw [getProvider_of_lookup_none cfg₁ st hl]
      exact lookupA_cons_of_fst_eq _ _ _ rfl
    · rw [getProvider_of_lookup_some cfg₁ st p hl]
      exact hl
  have hsame : ProviderFactory.getProvider cfg₁
      (ProviderFactory.getProvider cfg₁ st).2
      = ((ProviderFactory.getProvider cfg₁ st).1,
         (ProviderFactory.getProvider cfg₁ st).2) := by
    rw [getProvider_of_lookup_some cfg₁
      (ProviderFactory.getProvider cfg₁ st).2
      (ProviderFactory.getProvider cfg₁ st).1 hcache]
  refine ⟨hsame, hcache, ?_⟩
  intro hne
  rcases hl₁ : lookupA (normalizeProviderName cfg₁) st.instances with _ | p₁
  · rw [getProvider_of_lookup_none cfg₁ st hl₁]
    rcases hl₂ : lookupA (normalizeProviderName cfg₂)
        ((normalizeProviderName cfg₁,
          (⟨providerKindFor (normalizeProviderName cfg₁),
            st.nextIid⟩ : ProviderInstance)) :: st.instances) with _ | p₂
    · rw [getProvider_of_lookup_none cfg₂ _ hl₂]
      show (⟨providerKindFor (normalizeProviderName cfg₂),
              st.nextIid + 1⟩ : ProviderInstance)
          ≠ ⟨providerKindFor (normalizeProviderName cfg₁), st.nextIid⟩
      intro hc
      injection hc with hk hi
      omega
    · rw [getProvider_of_lookup_some cfg₂ _ p₂ hl₂]
      rw [lookupA_cons_of_fst_ne _ _ _ (by simpa using hne)] at hl₂
      have hm₂ := lookupA_mem _ _ _ hl₂
      have hlt : p₂.iid < st.nextIid := hwf.2 _ hm₂
      show p₂ ≠ ⟨providerKindFor (normalizeProviderName cfg₁), st.nextIid⟩
      intro hc
      have hiid : p₂.iid = st.nextIid := by rw [hc]
      omega
  · rw [getProvider_of_lookup_some cfg₁ st p₁ hl₁]
    rcases hl₂ : lookupA (normalizeProviderName cfg₂) st.instances with _ | p₂
    · rw [getProvider_of_lookup_none cfg₂ st hl₂]
      have hm₁ := lookupA_mem _ _ _ hl₁
      have hlt : p₁.iid < st.nextIid := hwf.2 _ hm₁
      show (⟨providerKindFor (normalizeProviderName cfg₂),
              st.nextIid⟩ : ProviderInstance) ≠ p₁
      intro hc
      have hiid : p₁.iid = st.nextIid := by rw [← hc]
      omega
    · rw [getProvider_of_lookup_some cfg₂ st p₂ hl₂]
      have hm₁ := lookupA_mem _ _ _ hl₁
      have hm₂ := lookupA_mem _ _ _ hl₂
      show p₂ ≠ p₁
      intro hc
      have heq := List.inj_on_of_nodup_map hwf.1 hm₂ hm₁
        (by rw [hc])
      have hkeys : normalizeProviderName cfg₂ = normalizeProviderName cfg₁ :=
        congrArg Prod.fst heq
      exact hne hkeys.symm

/-- Witness: `"browserstack"` and an absent configured name (↦ "local")
on the pristine cache give distinct instances; calling twice under
`"browserstack"` returns the identical instance. -/
theorem getProvider_memoizes_witness :
    FactoryState.WF ⟨[], 0⟩
    ∧ normalizeProviderName (some "browserstack") ≠ normalizeProviderName none
    ∧ ProviderFactory.getProvider (some "browserstack")
        (ProviderFactory.getProvider (some "browserstack") ⟨[], 0⟩).2
      = ((ProviderFactory.getProvider (some "browserstack") ⟨[], 0⟩).1,
         (ProviderFactory.getProvider (some "browserstack") ⟨[], 0⟩).2)
    ∧ (ProviderFactory.getProvider none
        (ProviderFactory.getProvider (some "browserstack") ⟨[], 0⟩).2).1
      ≠ (ProviderFactory.getProvider (some "browserstack") ⟨[], 0⟩).1 :=
  ⟨⟨by decide, by intro e he; exact absurd he (List.not_mem_nil e)⟩,
   by decide,
   (getProvider_memoizes (some "browserstack") none ⟨[], 0⟩
     ⟨by decide, by intro e he; exact absurd he (List.not_mem_nil e)⟩).1,
   (getProvider_memoizes (some "browserstack") none ⟨[], 0⟩
     ⟨by decide, by intro e he; exact absurd he (List.not_mem_nil e)⟩).2.2
     (by decide)⟩

/-- C6: N sequential `ensureInit()` calls (N ≥ 1) on a fresh broker
perform exactly one provider `init()`; once initialised, every further
call leaves the state unchanged and performs no provider call. -/
theorem ensureInit_exactly_once (N : Nat) (hN : 1 ≤ N) :
    (ensureInit^[N] DeviceBroker.fresh).initCalls = 1
    ∧ ensureInit^[N] DeviceBroker.fresh = ⟨true, 1⟩
    ∧ ∀ s : BrokerState, s.initialised = true → ensureInit s = s := by
  have hfix : ∀ s : BrokerState, s.initialised = true → ensureInit s = s := by
    intro s hs
    simp [ensureInit, hs]
  obtain ⟨n, rfl⟩ : ∃ n, N = n + 1 := ⟨N - 1, by omega⟩
  have hiter : ensureInit^[n + 1] DeviceBroker.fresh = ⟨true, 1⟩ := by
    rw [Function.iterate_succ_apply]
    show ensureInit^[n] ⟨true, 1⟩ = ⟨true, 1⟩
    exact Function.iterate_fixed (hfix ⟨true, 1⟩ rfl) n
  exact ⟨by rw [hiter], hiter, hfix⟩

/-- Witness: three calls perform exactly one `init()`, and a fourth call
on the resulting state is a no-op. -/
theorem ensureInit_exactly_once_witness :
    (1 : Nat) ≤ 3
    ∧ (ensureInit^[3] DeviceBroker.fresh).initCalls = 1
    ∧ ensureInit (⟨true, 1⟩ : BrokerState) = ⟨true, 1⟩ :=
  ⟨by decide,
   (ensureInit_exactly_once 3 (by decide)).1,
   (ensureInit_exactly_once 3 (by decide)).2.2 ⟨true, 1⟩ rfl⟩

/-- C7: `teardown()` on either adapter is safe to call twice — the
second call changes nothing and nothing propagates to the caller; each
closing step is attempted independently, so a handle that fails to close
never prevents closing the others (clauses quantify over arbitrary
states of the *other* handles, including failing ones). -/
theorem adapter_teardown_idempotent :
    (∀ s : PWState, PlaywrightAdapter.teardown (PlaywrightAdapter.teardown s)
        = PlaywrightAdapter.teardown s)
    ∧ (∀ (s : PWState) (hdl : Handle), s.page = some hdl →
        hdl.failsOnClose = false →
        (PlaywrightAdapter.teardown s).page = some ⟨true, false⟩)
    ∧ (∀ (s : PWState) (hdl : Handle), s.context = some hdl →
        hdl.failsOnClose = false →
        (PlaywrightAdapter.teardown s).context = some ⟨true, false⟩)
    ∧ (∀ (s : PWState) (hdl : Handle), s.browser = some hdl →
        hdl.failsOnClose = false →
        (PlaywrightAdapter.teardown s).browser = some ⟨true, false⟩)
    ∧ (∀ d : Option Driver, (AppiumAdapter.teardown d).1 = none)
    ∧ (∀ d : Option Driver,
        AppiumAdapter.teardown (AppiumAdapter.teardown d).1 = (none, []))
    ∧ (∀ d : Driver, (AppiumAdapter.teardown (some d)).2 = [deleteSession d]) := by
  refine ⟨?_, ?_, ?_, ?_, ?_, ?_, ?_⟩
  · intro s
    obtain ⟨p, c, b⟩ := s
    simp only [PlaywrightAdapter.teardown]
    rw [teardownStep_idem p, teardownStep_idem c, teardownStep_idem b]
  · intro s hdl hp hf
    obtain ⟨p, c, b⟩ := s
    simp only at hp
    subst hp
    obtain ⟨hc, hf'⟩ := hdl
    simp only at hf
    subst hf
    cases hc <;> rfl
  · intro s hdl hp hf
    obtain ⟨p, c, b⟩ := s
    simp only at hp
    subst hp
    obtain ⟨hc, hf'⟩ := hdl
    simp only at hf
    subst hf
    cases hc <;> rfl
  · intro s hdl hp hf
    obtain ⟨p, c, b⟩ := s
    simp only at hp
    subst hp
    obtain ⟨hc, hf'⟩ := hdl
    simp only at hf
    subst hf
    cases hc <;> rfl
  · intro d
    cases d <;> rfl
  · intro d
    cases d <;> rfl
  · intro d
    rfl

/-- Witness: a failing page handle does not prevent closing the context
and browser; the appium teardown's second call is a no-op. -/
theorem adapter_teardown_idempotent_witness :
    (PlaywrightAdapter.teardown
        ⟨some ⟨false, true⟩, some ⟨false, false⟩, some ⟨false, false⟩⟩).context
      = some ⟨true, false⟩
    ∧ (PlaywrightAdapter.teardown
        ⟨some ⟨false, true⟩, some ⟨false, false⟩, some ⟨false, false⟩⟩).browser
      = some ⟨true, false⟩
    ∧ PlaywrightAdapter.teardown (PlaywrightAdapter.teardown
        ⟨some ⟨false, true⟩, some ⟨false, false⟩, some ⟨false, false⟩⟩)
      = PlaywrightAdapter.teardown
        ⟨some ⟨false, true⟩, some ⟨false, false⟩, some ⟨false, false⟩⟩
    ∧ AppiumAdapter.teardown
        (AppiumAdapter.teardown (some ⟨true⟩)).1 = (none, []) :=
  ⟨adapter_teardown_idempotent.2.2.1
     ⟨some ⟨false, true⟩, some ⟨false, false⟩, some ⟨false, false⟩⟩
     ⟨false, false⟩ rfl rfl,
   adapter_teardown_idempotent.2.2.2.1
     ⟨some ⟨false, true⟩, some ⟨false, false⟩, some ⟨false, false⟩⟩
     ⟨false, false⟩ rfl rfl,
   adapter_teardown_idempotent.1
     ⟨some ⟨false, true⟩, some ⟨false, false⟩, some ⟨false, false⟩⟩,
   adapter_teardown_idempotent.2.2.2.2.2.1 (some ⟨true⟩)⟩

/-- C8 counterexample: an input that carries the vendor-prefixed platform
field with string value `"iOS"` yet is classified as the Android variant,
because it also carries an unprefixed string `platformName` and that key
takes precedence. -/
theorem detectPlatform_vendor_ios_counterexample :
    getKey [("platformName", Val.str "Android"),
            ("appium:platformName", Val.str "iOS")] "appium:platformName"
        = some (Val.str "iOS")
    ∧ detectPlatformFromCaps
        (some [("platformName", Val.str "Android"),
               ("appium:platformName", Val.str "iOS")]) ≠ Platform.ios :=
  ⟨rfl, by decide⟩

/-- C8 (amended): if the input's platform field is carried (only) under
the vendor-prefixed key, with string value "iOS" in any letter case, it
classifies as iOS; with no platform field at all — or no input — it
classifies as the default Android variant. -/
theorem detectPlatform_vendor_ios_and_default :
    (∀ (m : List (String × Val)) (s : String), s ∈ iosCaseVariants →
        (∀ t, getKey m "platformName" ≠ some (Val.str t)) →
        getKey m "appium:platformName" = some (Val.str s) →
        detectPlatformFromCaps (some m) = Platform.ios)
    ∧ (∀ m : List (String × Val), getKey m "platformName" = none →
        getKey m "appium:platformName" = none →
        detectPlatformFromCaps (some m) = Platform.android)
    ∧ detectPlatformFromCaps none = Platform.android := by
  refine ⟨?_, ?_, rfl⟩
  · intro m s hs hpn hv
    have hpick : pickPlatformName (some m) = jsToLower (jsTrim s) := by
      simp only [pickPlatformName]
      rcases hg : getKey m "platformName" with _ | w
      · rw [hv]
        rfl
      · cases w <;> first
          | exact absurd hg (hpn _)
          | (rw [hv]; rfl)
    unfold detectPlatformFromCaps
    rw [hpick]
    simp only [iosCaseVariants, List.mem_cons, List.not_mem_nil, or_false] at hs
    rcases hs with rfl | rfl | rfl | rfl | rfl | rfl | rfl | rfl <;> rfl
  · intro m h₁ h₂
    have hpick : pickPlatformName (some m) = "" := by
      simp only [pickPlatformName]
      rw [h₁, h₂]
      rfl
    unfold detectPlatformFromCaps
    rw [hpick]
    rfl

/-- Witness for the amended C8 theorem: a bare vendor-prefixed record
with `"iOS"`, and the empty record. -/
theorem detectPlatform_vendor_ios_and_default_witness :
    (("iOS" : String) ∈ iosCaseVariants
      ∧ (∀ t, getKey [("appium:platformName", Val.str "iOS")] "platformName"
            ≠ some (Val.str t))
      ∧ getKey [("appium:platformName", Val.str "iOS")] "appium:platformName"
          = some (Val.str "iOS")
      ∧ detectPlatformFromCaps (some [("appium:platformName", Val.str "iOS")])
          = Platform.ios)
    ∧ (getKey ([] : List (String × Val)) "platformName" = none
      ∧ getKey ([] : List (String × Val)) "appium:platformName" = none
      ∧ detectPlatformFromCaps (some ([] : List (String × Val)))
          = Platform.android) :=
  ⟨⟨by decide, fun t h => Option.noConfusion h, rfl,
    detectPlatform_vendor_ios_and_default.1
      [("appium:platformName", Val.str "iOS")] "iOS" (by decide)
      (fun t h => Option.noConfusion h) rfl⟩,
   ⟨rfl, rfl,
    detectPlatform_vendor_ios_and_default.2.1 [] rfl rfl⟩⟩

/-- C9: `build()` returns a frozen snapshot of the working map: the
returned `CapabilitySet` holds exactly the fields at build time and is
frozen; any later sequence of builder mutations (`option`, `appium`,
`setIf`, `unset`, `merge`, `vendor`, further `build`s) leaves the built
snapshot unchanged, and direct write/delete attempts on the snapshot are
no-ops. -/
theorem build_frozen_snapshot_immutable (b : CapabilityBuilder) (h : Heap)
    (hc : b.capsId < h.next) :
    (b.build h).2.lookup (b.build h).1 = some ⟨b.fields h, true⟩
    ∧ ∀ ops : List BOp,
        (applyOps (b, (b.build h).2) ops).2.lookup (b.build h).1
            = some ⟨b.fields h, true⟩
        ∧ (∀ k v,
            (((applyOps (b, (b.build h).2) ops).2.writeField (b.build h).1 k v).lookup
              (b.build h).1) = some ⟨b.fields h, true⟩)
        ∧ (∀ k,
            (((applyOps (b, (b.build h).2) ops).2.deleteField (b.build h).1 k).lookup
              (b.build h).1) = some ⟨b.fields h, true⟩) := by
  have hself : (b.build h).2.lookup (b.build h).1 = some ⟨b.fields h, true⟩ :=
    Heap.lookup_alloc_self h ⟨b.fields h, true⟩
  refine ⟨hself, fun ops => ?_⟩
  have hne : b.capsId ≠ (b.build h).1 := Nat.ne_of_lt hc
  have hlt : (b.build h).1 < (b.build h).2.next := Nat.lt_succ_self h.next
  have hp := applyOps_preserves (b.build h).1 ops b (b.build h).2 hne hlt
  have hmain : (applyOps (b, (b.build h).2) ops).2.lookup (b.build h).1
      = some ⟨b.fields h, true⟩ := hp.2.2.trans hself
  refine ⟨hmain, fun k v => ?_, fun k => ?_⟩
  · exact lookupA_writeEntry_frozen _ _ k v _ hmain rfl
  · exact lookupA_deleteEntry_frozen _ _ k _ hmain rfl

/-- Witness for the frozen-snapshot theorem: the Android base builder on
the empty heap. -/
theorem build_frozen_snapshot_immutable_witness :
    ((CapabilityBuilder.android "UiAutomator2" emptyHeap).1.capsId
        < (CapabilityBuilder.android "UiAutomator2" emptyHeap).2.next)
    ∧ (((CapabilityBuilder.android "UiAutomator2" emptyHeap).1.build
          (CapabilityBuilder.android "UiAutomator2" emptyHeap).2).2.lookup
        ((CapabilityBuilder.android "UiAutomator2" emptyHeap).1.build
          (CapabilityBuilder.android "UiAutomator2" emptyHeap).2).1
        = some ⟨(CapabilityBuilder.android "UiAutomator2" emptyHeap).1.fields
            (CapabilityBuilder.android "UiAutomator2" emptyHeap).2, true⟩) :=
  ⟨by decide,
   (build_frozen_snapshot_immutable
      (CapabilityBuilder.android "UiAutomator2" emptyHeap).1
      (CapabilityBuilder.android "UiAutomator2" emptyHeap).2 (by decide)).1⟩

/-- C10: when the unprefixed `platformName` key is a string, platform
detection uses it and ignores the vendor-prefixed key entirely; the
vendor-prefixed key is consulted only when the unprefixed key is absent
or not a string.  In particular `platformName: "Android"` together with
`appium:platformName: "iOS"` classifies as Android. -/
theorem detectPlatform_unprefixed_wins :
    (∀ (m : List (String × Val)) (s : String),
        getKey m "platformName" = some (Val.str s) →
        pickPlatformName (some m) = jsToLower (jsTrim s)
        ∧ detectPlatformFromCaps (some m)
            = (if jsIncludes (jsToLower (jsTrim s)) "ios" then Platform.ios
               else Platform.android))
    ∧ (∀ (m : List (String × Val)) (w : Val) (t : String),
        getKey m "platformName" = some w → (∀ u, w ≠ Val.str u) →
        getKey m "appium:platformName" = some (Val.str t) →
        pickPlatformName (some m) = jsToLower (jsTrim t))
    ∧ (∀ (m : List (String × Val)) (t : String),
        getKey m "platformName" = none →
        getKey m "appium:platformName" = some (Val.str t) →
        pickPlatformName (some m) = jsToLower (jsTrim t))
    ∧ detectPlatformFromCaps
        (some [("platformName", Val.str "Android"),
               ("appium:platformName", Val.str "iOS")]) = Platform.android := by
  refine ⟨?_, ?_, ?_, by decide⟩
  · intro m s hpn
    have hpick : pickPlatformName (some m) = jsToLower (jsTrim s) := by
      simp only [pickPlatformName]
      rw [hpn]
      rfl
    exact ⟨hpick, by unfold detectPlatformFromCaps; rw [hpick]⟩
  · intro m w t hpn hw hv
    simp only [pickPlatformName]
    rw [hpn, hv]
    cases w with
    | str u => exact absurd rfl (hw u)
    | num n => rfl
    | bool c => rfl
    | obj l => rfl
    | arr l => rfl
    | null => rfl
    | undef => rfl
  · intro m t h₁ h₂
    simp only [pickPlatformName]
    rw [h₁, h₂]
    rfl

/-- Witness for the unprefixed-wins theorem at the concrete
Android/iOS pair of the claim. -/
theorem detectPlatform_unprefixed_wins_witness :
    (getKey [("platformName", Val.str "Android"),
             ("appium:platformName", Val.str "iOS")] "platformName"
        = some (Val.str "Android"))
    ∧ pickPlatformName (some [("platformName", Val.str "Android"),
          ("appium:platformName", Val.str "iOS")])
        = jsToLower (jsTrim "Android")
    ∧ detectPlatformFromCaps (some [("platformName", Val.str "Android"),
          ("appium:platformName", Val.str "iOS")])
        = (if jsIncludes (jsToLower (jsTrim "Android")) "ios" then Platform.ios
           else Platform.android) :=
  ⟨rfl,
   (detectPlatform_unprefixed_wins.1
      [("platformName", Val.str "Android"),
       ("appium:platformName", Val.str "iOS")] "Android" rfl).1,
   (detectPlatform_unprefixed_wins.1
      [("platformName", Val.str "Android"),
       ("appium:platformName", Val.str "iOS")] "Android" rfl).2⟩

end Critter
